import Mathlib

/-!
# Verification of the `rcell` crate (src/src/lib.rs)

Shallow embedding of the `RCell` reference-state machine.  An `RCell<T>`
holds an `ArcState<T>`: either a strong handle (`Arc<T>`), a weak handle
(`Weak<T>`) or nothing (`Empty`).  We model the reference-counted store
(`Arc`/`Weak` allocations) as a heap mapping allocation ids to their live
strong-handle count and stored value.  Handles are allocation ids; holding
a strong handle contributes 1 to the allocation's strong count.  The
sharded mutex merely serializes the operations of one cell, so each public
operation of `RCell` becomes a pure function on `(Heap, ArcState)`.
-/

/-- The reference-counted store underlying `Arc<T>`/`Weak<T>`: for every
allocation id, its current number of live strong handles and its stored
value; `next` is the next fresh id for `Arc::new`. -/
structure Heap (α : Type) where
  strong : Nat → Nat
  val : Nat → α
  next : Nat

namespace Heap

variable {α : Type}

/-- Overwrite the strong count of allocation `i`. -/
def setStrong (h : Heap α) (i n : Nat) : Heap α :=
  { h with strong := fun j => if j = i then n else h.strong j }

/-- Models `Arc::clone`: one more live strong handle of allocation `a`. -/
def clone (h : Heap α) (a : Nat) : Heap α :=
  h.setStrong a (h.strong a + 1)

/-- Dropping a strong handle of allocation `a`: one fewer live strong
handle (the target dies when the count reaches 0). -/
def dropArc (h : Heap α) (a : Nat) : Heap α :=
  h.setStrong a (h.strong a - 1)

/-- Models `Weak::strong_count` / `Arc::strong_count`: the current number of live
strong handles of the allocation. -/
def strongCount (h : Heap α) (i : Nat) : Nat :=
  h.strong i

/-- Models `Weak::upgrade`: succeeds iff the strong count is positive at the
instant of the attempt, and then yields a fresh strong handle of the same
allocation (incrementing the count). -/
def upgrade (h : Heap α) (w : Nat) : Option Nat × Heap α :=
  if 0 < h.strong w then (some w, h.clone w) else (none, h)

/-- Models `Arc::new`: a fresh allocation holding `v` with exactly one strong
handle. -/
def alloc (h : Heap α) (v : α) : Nat × Heap α :=
  (h.next,
    { strong := fun j => if j = h.next then 1 else h.strong j
      val := fun j => if j = h.next then v else h.val j
      next := h.next + 1 })

end Heap

/-- Mirrors `enum ArcState<T> { Arc(Arc<T>), Weak(Weak<T>), Empty }` (lib.rs
lines 57–61).  `Arc a` holds a strong handle of allocation `a` (counted in
the heap's strong count), `Weak w` a weak handle of allocation `w`. -/
inductive ArcState (α : Type) where
  | Arc (a : Nat)
  | Weak (w : Nat)
  | Empty
  deriving DecidableEq, Repr

namespace ArcState

variable {α : Type}

/-- Translates `ArcState::refcount` (lib.rs lines 210–216): strong count through the
held handle, 0 when `Empty`. -/
def refcount (h : Heap α) : ArcState α → Nat
  | .Arc a => h.strongCount a
  | .Weak w => h.strongCount w
  | .Empty => 0

/-- Dropping an `ArcState` (the `mem::replace` discard in lib.rs):
a strong handle decrements its allocation's strong count; dropping a weak
handle or `Empty` leaves all strong counts unchanged. -/
def dropState (h : Heap α) : ArcState α → Heap α
  | .Arc a => h.dropArc a
  | .Weak _ => h
  | .Empty => h

end ArcState

namespace RCell

variable {α : Type}

/-- Translates `RCell::new` (lib.rs lines 68–70): `ArcState::Arc(Arc::new(value))`. -/
def new (h : Heap α) (value : α) : ArcState α × Heap α :=
  let (a, h') := h.alloc value
  (.Arc a, h')

/-- Translates `RCell::retained` (lib.rs lines 73–75): `matches!(_, ArcState::Arc(_))`. -/
def retained : ArcState α → Bool
  | .Arc _ => true
  | _ => false

/-- Translates `RCell::refcount` (lib.rs lines 80–82): `self.lock().refcount()`. -/
def refcount (h : Heap α) (s : ArcState α) : Nat :=
  s.refcount h

/-- Translates `RCell::retain` (lib.rs lines 87–101).  Returns the optional strong
handle, the cell's new state and the new heap.  `Arc`: clone and return.
`Weak`: attempt `upgrade`; on success install `ArcState::Arc(arc.clone())`
(the old weak handle is dropped by `mem::replace`) and return the upgraded
handle; on failure leave the state alone.  `Empty`: return nothing. -/
def retain (h : Heap α) (s : ArcState α) : Option Nat × ArcState α × Heap α :=
  match s with
  | .Arc a => (some a, .Arc a, h.clone a)
  | .Weak w =>
    match h.upgrade w with
    | (some a, h') => (some a, .Arc a, h'.clone a)
    | (none, h') => (none, .Weak w, h')
  | .Empty => (none, .Empty, h)

/-- Translates `RCell::release` (lib.rs lines 105–119).  `Arc`: downgrade (the cell
still holds its strong handle while `strong_count` is read), then install
`Weak` if the count is positive, else `Empty`; the `mem::replace` drops
the old state.  `Weak`: re-check liveness, settle into `Weak` or `Empty`.
`Empty`: no-op. -/
def release (h : Heap α) (s : ArcState α) : ArcState α × Heap α :=
  match s with
  | .Arc a =>
    if 0 < h.strongCount a then (.Weak a, (ArcState.Arc a).dropState h)
    else (.Empty, (ArcState.Arc a).dropState h)
  | .Weak w =>
    if 0 < h.strongCount w then (.Weak w, h)
    else (.Empty, h)
  | .Empty => (.Empty, h)

/-- Translates `RCell::remove` (lib.rs lines 124–126): `mem::replace(_, Empty)`, the
old state is dropped. -/
def remove (h : Heap α) (s : ArcState α) : ArcState α × Heap α :=
  (.Empty, s.dropState h)

/-- Translates `RCell::request` (lib.rs lines 130–136): `Arc`: clone; `Weak`:
`weak.upgrade()` returned directly, never written back; `Empty`: nothing.
The cell's state is returned unchanged. -/
def request (h : Heap α) (s : ArcState α) : Option Nat × ArcState α × Heap α :=
  match s with
  | .Arc a => (some a, s, h.clone a)
  | .Weak w =>
    let (r, h') := h.upgrade w
    (r, s, h')
  | .Empty => (none, s, h)

/-- Translates `Replace<Arc<T>>::replace` (lib.rs lines 150–158): install
`ArcState::Arc(arc)` (the supplied handle is moved in), drop the old
state. -/
def replaceArc (h : Heap α) (s : ArcState α) (arc : Nat) : ArcState α × Heap α :=
  (.Arc arc, s.dropState h)

/-- Translates `Replace<Weak<T>>::replace` (lib.rs lines 160–168): install
`ArcState::Weak(weak)`, drop the old state. -/
def replaceWeak (h : Heap α) (s : ArcState α) (weak : Nat) : ArcState α × Heap α :=
  (.Weak weak, s.dropState h)

/-- Translates `Clone for RCell` via `Clone for ArcState` (lib.rs lines 200–228):
`Arc` clones the strong handle (incrementing the count), `Weak` clones the
weak handle, `Empty` stays `Empty`. -/
def cloneState (h : Heap α) (s : ArcState α) : ArcState α × Heap α :=
  match s with
  | .Arc a => (.Arc a, h.clone a)
  | .Weak w => (.Weak w, h)
  | .Empty => (.Empty, h)

/-- The cell/heap invariant: a cell in the `Arc` state owns a live strong
handle, so its allocation's strong count is at least 1. -/
def WF (h : Heap α) (s : ArcState α) : Prop :=
  ∀ a, s = .Arc a → 1 ≤ h.strong a

end RCell

/-- A concrete heap for witnesses: allocation 0 holds value 7 with one
live strong handle, allocation 1 holds value 9 with none left. -/
def heap1 : Heap Nat :=
  { strong := fun i => if i = 0 then 1 else 0
    val := fun i => if i = 0 then 7 else 9
    next := 2 }

/-- C1: `retain()` case analysis.  On a `Strong` cell it clones and
returns the strong handle, leaving the state `Strong`.  On a `Weak` cell
it attempts an upgrade: on success (the target still has a live strong
holder) it caches the result by transitioning the state to `Strong` and
returns the handle; on failure the state stays `Weak` and nothing is
returned.  On an `Empty` cell it returns nothing and changes neither
state nor heap. -/
theorem retain_cases {α : Type} (h : Heap α) (s : ArcState α) :
    match s with
    | ArcState.Arc a =>
      (RCell.retain h s).1 = some a ∧ (RCell.retain h s).2.1 = ArcState.Arc a
    | ArcState.Weak w =>
      if 0 < h.strongCount w then
        (RCell.retain h s).1 = some w ∧ (RCell.retain h s).2.1 = ArcState.Arc w
      else
        (RCell.retain h s).1 = none ∧ (RCell.retain h s).2.1 = ArcState.Weak w
    | ArcState.Empty =>
      (RCell.retain h s).1 = none ∧ (RCell.retain h s).2 = (ArcState.Empty, h) := by
  cases s with
  | Arc a => simp [RCell.retain]
  | Weak w =>
    simp only [RCell.retain, Heap.upgrade, Heap.strongCount]
    split <;> simp_all
  | Empty => simp [RCell.retain]

/-- C2: `release()` case analysis.  On a `Strong` cell it derives a weak
handle, re-checks whether any strong holder remains (while the cell still
holds its own strong handle), transitions to `Weak` on a positive count
and directly to `Empty` on a zero count, dropping the old strong handle
either way.  On a `Weak` cell it recomputes the same liveness check and
settles into `Weak` (target alive) or `Empty` (target dead).  On an
`Empty` cell it is a no-op. -/
theorem release_cases {α : Type} (h : Heap α) (s : ArcState α) :
    match s with
    | ArcState.Arc a =>
      (if 0 < h.strongCount a then (RCell.release h s).1 = ArcState.Weak a
       else (RCell.release h s).1 = ArcState.Empty) ∧
      (RCell.release h s).2 = h.dropArc a
    | ArcState.Weak w =>
      (if 0 < h.strongCount w then (RCell.release h s).1 = ArcState.Weak w
       else (RCell.release h s).1 = ArcState.Empty) ∧
      (RCell.release h s).2 = h
    | ArcState.Empty => RCell.release h s = (ArcState.Empty, h) := by
  cases s with
  | Arc a =>
    simp only [RCell.release, ArcState.dropState]
    split <;> simp_all
  | Weak w =>
    simp only [RCell.release]
    split <;> simp_all
  | Empty => simp [RCell.release]

/-- C3: from the `Strong` state, `release()` always transitions to
`Weak`, never directly to `Empty`: the liveness check reads the strong
count while the cell itself still holds its own strong handle, so under
the cell invariant the count is at least 1 and the `Empty` branch is
unreachable. -/
theorem release_strong_always_weak {α : Type} (h : Heap α) (a : Nat)
    (inv : RCell.WF h (ArcState.Arc a)) :
    (RCell.release h (ArcState.Arc a)).1 = ArcState.Weak a := by
  have h1 : 1 ≤ h.strong a := inv a rfl
  simp only [RCell.release, Heap.strongCount]
  split <;> simp_all

/-- Witness for C3 at the concrete heap `heap1` and allocation 0. -/
theorem release_strong_always_weak_witness :
    (RCell.release heap1 (ArcState.Arc 0)).1 = ArcState.Weak 0 :=
  release_strong_always_weak heap1 0 (by
    intro a ha
    have : a = 0 := by cases ha; rfl
    subst this; decide)

/-- C4: `request()` is read-only: for every cell state the state after
equals the state before; on `Strong` it returns a clone of the strong
handle, on `Weak` it returns the result of an upgrade attempt (a handle
iff the target is alive) without transitioning to `Strong`, and on
`Empty` it returns nothing. -/
theorem request_read_only {α : Type} (h : Heap α) (s : ArcState α) :
    (RCell.request h s).2.1 = s ∧
    (match s with
     | ArcState.Arc a => (RCell.request h s).1 = some a
     | ArcState.Weak w =>
       (RCell.request h s).1 = if 0 < h.strongCount w then some w else none
     | ArcState.Empty => (RCell.request h s).1 = none) := by
  cases s with
  | Arc a => simp [RCell.request]
  | Weak w =>
    simp only [RCell.request, Heap.upgrade, Heap.strongCount]
    split <;> simp_all
  | Empty => simp [RCell.request]

/-- C5: `retained()` returns `true` iff the cell's current state is
`Strong`; it is `false` on `Weak` (regardless of target liveness) and on
`Empty`. -/
theorem retained_iff_strong {α : Type} (s : ArcState α) :
    RCell.retained s = true ↔ ∃ a, s = ArcState.Arc a := by
  cases s <;> simp [RCell.retained]

/-- C6: `remove()` unconditionally transitions the cell to `Empty` from
every prior state, dropping any held strong handle, and afterwards
`retained()` returns `false` and `request()` returns `none`. -/
theorem remove_spec {α : Type} (h : Heap α) (s : ArcState α) :
    (RCell.remove h s).1 = ArcState.Empty ∧
    (RCell.remove h s).2 = s.dropState h ∧
    RCell.retained (RCell.remove h s).1 = false ∧
    (RCell.request (RCell.remove h s).2 (RCell.remove h s).1).1 = none := by
  refine ⟨rfl, rfl, rfl, rfl⟩

/-- C7: `replace(strong_handle)` unconditionally overwrites the state
with `Strong` holding the supplied handle (afterwards `retained()` is
`true` and `request()` returns the supplied handle); `replace(weak_handle)`
unconditionally overwrites the state with `Weak` holding the supplied
handle (afterwards `retained()` is `false` and `request()` returns a
handle iff the weak target is still alive); in both cases the prior
contents are dropped. -/
theorem replace_spec {α : Type} (h : Heap α) (s : ArcState α) (a w : Nat) :
    (RCell.replaceArc h s a).1 = ArcState.Arc a ∧
    (RCell.replaceArc h s a).2 = s.dropState h ∧
    RCell.retained (RCell.replaceArc h s a).1 = true ∧
    (RCell.request (RCell.replaceArc h s a).2 (RCell.replaceArc h s a).1).1 = some a ∧
    (RCell.replaceWeak h s w).1 = ArcState.Weak w ∧
    (RCell.replaceWeak h s w).2 = s.dropState h ∧
    RCell.retained (RCell.replaceWeak h s w).1 = false ∧
    ((RCell.request (RCell.replaceWeak h s w).2 (RCell.replaceWeak h s w).1).1
        = some w ↔ 0 < (s.dropState h).strongCount w) := by
  refine ⟨rfl, rfl, rfl, rfl, rfl, rfl, rfl, ?_⟩
  simp only [RCell.replaceWeak, RCell.request, Heap.upgrade, Heap.strongCount]
  split <;> simp_all

/-- C8: the cell invariant (a `Strong` cell owns a live strong handle, so
the allocation's strong count — hence `refcount()` — is at least 1) holds
of the current state and is preserved by every operation, and an `Empty`
cell has `refcount() = 0`. -/
theorem wf_preserved {α : Type} (h : Heap α) (s : ArcState α)
    (hwf : RCell.WF h s) :
    (RCell.retained s = true → 1 ≤ RCell.refcount h s) ∧
    (s = ArcState.Empty → RCell.refcount h s = 0) ∧
    RCell.WF (RCell.retain h s).2.2 (RCell.retain h s).2.1 ∧
    RCell.WF (RCell.release h s).2 (RCell.release h s).1 ∧
    RCell.WF (RCell.remove h s).2 (RCell.remove h s).1 ∧
    RCell.WF (RCell.request h s).2.2 (RCell.request h s).2.1 ∧
    (∀ v, RCell.WF (RCell.new h v).2 (RCell.new h v).1) ∧
    (∀ b, 1 ≤ (s.dropState h).strong b →
      RCell.WF (RCell.replaceArc h s b).2 (RCell.replaceArc h s b).1) ∧
    (∀ b, RCell.WF (RCell.replaceWeak h s b).2 (RCell.replaceWeak h s b).1) ∧
    RCell.WF (RCell.cloneState h s).2 (RCell.cloneState h s).1 := by
  refine ⟨?_, ?_, ?_, ?_, ?_, ?_, ?_, ?_, ?_, ?_⟩
  · cases s with
    | Arc a => exact fun _ => hwf a rfl
    | Weak w => intro hret; simp [RCell.retained] at hret
    | Empty => intro hret; simp [RCell.retained] at hret
  · intro he; subst he; rfl
  · cases s with
    | Arc a =>
      intro b hb
      simp only [RCell.retain, ArcState.Arc.injEq] at hb
      subst hb
      simp [RCell.retain, Heap.clone, Heap.setStrong]
    | Weak w =>
      intro b hb
      by_cases hc : 0 < h.strong w <;>
        simp only [RCell.retain, Heap.upgrade, hc, if_true, if_false] at hb ⊢
      · simp only [ArcState.Arc.injEq] at hb
        subst hb
        simp [Heap.clone, Heap.setStrong]
      · simp at hb
    | Empty => intro b hb; simp [RCell.retain] at hb
  · cases s with
    | Arc a =>
      intro b hb
      by_cases hc : 0 < h.strongCount a <;> simp [RCell.release, hc] at hb
    | Weak w =>
      intro b hb
      by_cases hc : 0 < h.strongCount w <;> simp [RCell.release, hc] at hb
    | Empty => intro b hb; simp [RCell.release] at hb
  · intro b hb; simp [RCell.remove] at hb
  · cases s with
    | Arc a =>
      intro b hb
      simp only [RCell.request, ArcState.Arc.injEq] at hb
      subst hb
      simp [RCell.request, Heap.clone, Heap.setStrong]
    | Weak w =>
      intro b hb
      by_cases hc : 0 < h.strong w <;>
        simp [RCell.request, Heap.upgrade, hc] at hb
    | Empty => intro b hb; simp [RCell.request] at hb
  · intro v b hb
    simp only [RCell.new, Heap.alloc, ArcState.Arc.injEq] at hb
    subst hb
    simp [RCell.new, Heap.alloc]
  · intro b hle c hc
    simp only [RCell.replaceArc, ArcState.Arc.injEq] at hc
    subst hc
    exact hle
  · intro b c hc; simp [RCell.replaceWeak] at hc
  · cases s with
    | Arc a =>
      intro b hb
      simp only [RCell.cloneState, ArcState.Arc.injEq] at hb
      subst hb
      simp [RCell.cloneState, Heap.clone, Heap.setStrong]
    | Weak w => intro b hb; simp [RCell.cloneState] at hb
    | Empty => intro b hb; simp [RCell.cloneState] at hb

/-- Witness for C8: the invariant consequences at the concrete heap
`heap1` and the strong state over allocation 0. -/
theorem wf_preserved_witness :
    1 ≤ RCell.refcount heap1 (ArcState.Arc 0) ∧
    RCell.WF (RCell.release heap1 (ArcState.Arc 0)).2
      (RCell.release heap1 (ArcState.Arc 0)).1 := by
  have hwf : RCell.WF heap1 (ArcState.Arc 0) := by
    intro a ha
    have : a = 0 := by cases ha; rfl
    subst this; decide
  have h := wf_preserved heap1 (ArcState.Arc 0) hwf
  exact ⟨h.1 rfl, h.2.2.2.1⟩

/-- C9: for a cell created by `new(v)` (a fresh allocation, so no other
strong holders): `retained()` is `true`, `request()` returns a handle
whose target equals `v`, and after `release()` the cell was the sole
strong holder, so `request()` returns `none`. -/
theorem new_release_spec {α : Type} (h : Heap α) (v : α) :
    RCell.retained (RCell.new h v).1 = true ∧
    (∃ r, (RCell.request (RCell.new h v).2 (RCell.new h v).1).1 = some r ∧
      (RCell.new h v).2.val r = v) ∧
    (RCell.request (RCell.release (RCell.new h v).2 (RCell.new h v).1).2
      (RCell.release (RCell.new h v).2 (RCell.new h v).1).1).1 = none := by
  refine ⟨rfl, ⟨h.next, rfl, by simp [RCell.new, Heap.alloc]⟩, ?_⟩
  simp [RCell.new, Heap.alloc, RCell.release, RCell.request, Heap.strongCount,
    Heap.upgrade, ArcState.dropState, Heap.dropArc, Heap.setStrong]
